import Mathlib

/-!
Verification development for the params-router library.

The library converts between URLs (pathname, search, hash, state) and
parameter mappings, builds URLs from mappings, and composes routing
scopes hierarchically.  The core modules embedded here are:

- src/router.js      : default-pattern state and the compiled-parser cache
- src/parsing.js     : trimSlashes, toOwnParams, toParams, stringify, toUrl
- src/routable.js    : hierarchical scope derivation, goTo
- src/navigation.js  : navigate and the anchor click handler goTo(e)
- src/util.js        : isNil, omit, pick

External collaborators (the url-pattern matcher, the query-string codec,
the WHATWG URL constructor) are modelled from the specification where
noted; the modelling is faithful to their documented behaviour on the
inputs the library feeds them.  JavaScript objects are modelled as
association lists with last-assignment-wins lookup; recursive functions
over the pattern AST carry an explicit fuel argument (always instantiated
with a sufficient bound) so that every definition reduces in the kernel.
-/

/-- A parameter value: string, number or boolean (numbers are modelled as
integers; the query codec only ever produces integer-looking numbers in
this development). -/
inductive Val where
  | str (s : String)
  | num (n : Int)
  | bool (b : Bool)
  deriving DecidableEq, Repr

/-- A parameter mapping, modelled as an association list in insertion
order; keys are unique for every list the library constructs. -/
abbrev Params := List (String × Val)

/-- Lookup of a key, last assignment wins (JavaScript object semantics). -/
def getP (ps : Params) (k : String) : Option Val :=
  match ps with
  | [] => none
  | kv :: t =>
    match getP t k with
    | some v => some v
    | none => if kv.1 = k then some kv.2 else none

/-- Whether a key is present. -/
def containsKey (ps : Params) (k : String) : Bool :=
  ps.any (fun kv => kv.1 = k)

/-- Replace the value at every occurrence of a key. -/
def updateAll (ps : Params) (k : String) (v : Val) : Params :=
  match ps with
  | [] => []
  | kv :: t => (if kv.1 = k then (k, v) else kv) :: updateAll t k v

/-- JavaScript property assignment: update in place when the key exists,
append otherwise. -/
def insertP (ps : Params) (k : String) (v : Val) : Params :=
  if containsKey ps k then updateAll ps k v else ps ++ [(k, v)]

/-- JavaScript object spread of two objects: the second operand is copied
onto the first, its keys overriding. -/
def jsMerge (a b : Params) : Params :=
  b.foldl (fun acc kv => insertP acc kv.1 kv.2) a

/-- Drop one key, keeping order (rest destructuring of an object). -/
def removeKey (ps : Params) (k : String) : Params :=
  ps.filter (fun kv => kv.1 ≠ k)

/-- Keep only entries whose key is outside the list (util.js omit). -/
def omitKeys (keys : List String) (ps : Params) : Params :=
  ps.filter (fun kv => !(keys.contains kv.1))

/-- String(value) coercion used when a value lands in URL text. -/
def valToString : Val → String
  | .str s => s
  | .num n => toString n
  | .bool b => cond b "true" "false"

/-- UTF-16 code-unit comparison of char lists (JavaScript string order). -/
def charsLt : List Char → List Char → Bool
  | [], [] => false
  | [], _ :: _ => true
  | _ :: _, [] => false
  | a :: as, b :: bs =>
    if a.val < b.val then true
    else if b.val < a.val then false
    else charsLt as bs

/-- Insert into a key-sorted association list. -/
def insSorted (kv : String × Val) : Params → Params
  | [] => [kv]
  | h :: t => if charsLt kv.1.data h.1.data then kv :: h :: t else h :: insSorted kv t

/-- Sort an association list by key (query-string sorts keys). -/
def sortByKey (ps : Params) : Params :=
  ps.foldr insSorted []

/-- Integer-looking strings: an optional minus sign then one or more
digits. -/
def isNumericStr (s : String) : Bool :=
  match s.data with
  | [] => false
  | '-' :: rest => rest ≠ [] && rest.all Char.isDigit
  | cs => cs.all Char.isDigit

/-- Decimal digits to a natural number. -/
def digitsToNat (cs : List Char) : Nat :=
  cs.foldl (fun acc c => acc * 10 + (c.toNat - 48)) 0

/-- Parse an integer-looking string. -/
def strToInt (s : String) : Int :=
  match s.data with
  | '-' :: rest => -(Int.ofNat (digitsToNat rest))
  | cs => Int.ofNat (digitsToNat cs)

/-- Coercion applied by the query codec when parseNumbers and
parseBooleans are enabled. -/
def coerceVal (v : String) : Val :=
  if v = "true" then .bool true
  else if v = "false" then .bool false
  else if isNumericStr v then .num (strToInt v)
  else .str v

/-- Strip a single leading question mark or hash sign. -/
def stripLead (s : String) : String :=
  match s.data with
  | '?' :: rest => String.mk rest
  | '#' :: rest => String.mk rest
  | _ => s

/-- Split a character list on a separator character. -/
def splitOnChar (sep : Char) : List Char → List (List Char)
  | [] => [[]]
  | c :: cs =>
    let r := splitOnChar sep cs
    if c = sep then [] :: r
    else
      match r with
      | [] => [[c]]
      | h :: t => (c :: h) :: t

/-- Split a character list at the first equals sign, if any. -/
def splitFirstEq : List Char → List Char × Option (List Char)
  | [] => ([], none)
  | c :: rest =>
    if c = '=' then ([], some rest)
    else
      let r := splitFirstEq rest
      (c :: r.1, r.2)

/-- Modelled from the spec: the external query codec decode operation
(query-string parse with numeric and boolean coercion enabled).  Splits
on ampersands, skipping empty parts, splits each part at the first
equals sign, coerces values, and returns a key-sorted mapping as the
codec does.  Percent decoding and null values for bare keys are not
modelled; the library never feeds the codec such inputs in the verified
scenarios. -/
def qsParse (raw : String) : Params :=
  let s := stripLead raw
  if s = "" then []
  else
    let parts := (splitOnChar '&' s.data).filter (fun part => part ≠ [])
    let pairs := parts.map (fun part =>
      let kv := splitFirstEq part
      match kv.2 with
      | none => (String.mk kv.1, Val.str "")
      | some v => (String.mk kv.1, coerceVal (String.mk v)))
    sortByKey (pairs.foldl (fun acc kv => insertP acc kv.1 kv.2) [])

/-- Modelled from the spec: the external query codec encode operation
(query-string stringify, which sorts keys). -/
def qsStringify (ps : Params) : String :=
  String.intercalate "&" ((sortByKey ps).map (fun kv => kv.1 ++ "=" ++ valToString kv.2))

/-- A location value: pathname, search, hash and out-of-band state. -/
structure Location where
  pathname : String := ""
  search : String := ""
  hash : String := ""
  state : Params := []
  deriving DecidableEq, Repr

/-- Count of leading slashes. -/
def leadingSlashes (cs : List Char) : Nat :=
  (cs.takeWhile (fun c => c = '/')).length

/-- Drop the maximal trailing run of slashes. -/
def dropTrailingSlashes (cs : List Char) : List Char :=
  (cs.reverse.dropWhile (fun c => c = '/')).reverse

/-- Translation of parsing.js trimSlashes, which performs a SINGLE
replacement of the first match of the regex (caret)(slash+)slash|slash+$
by the empty string (the regex has no global flag).  When the string
starts with two or more slashes the first alternative matches the whole
leading run (the group backtracks so that the final slash of the run
closes the match) and only that run is removed, leaving any trailing
slashes in place; otherwise the trailing run, if any, is removed. -/
def trimSlashes (s : String) : String :=
  let cs := s.data
  if 2 ≤ leadingSlashes cs then String.mk (cs.drop (leadingSlashes cs))
  else String.mk (dropTrailingSlashes cs)


/-- Modelled from the spec: the compiled form of a path template as built
by the external pattern-matching collaborator (url-pattern with default
options).  A template is a sequence of literal characters, named segments
(colon then an alphanumeric name, matching one or more segment-value
characters), wildcards (star, matching lazily and captured under the
underscore key), and optional groups in parentheses; the sequence is
written with an explicit continuation in each constructor. -/
inductive Pat where
  | nil
  | lit (c : Char) (rest : Pat)
  | named (n : String) (rest : Pat)
  | wildcard (rest : Pat)
  | opt (inner : Pat) (rest : Pat)
  deriving DecidableEq, Repr

/-- Concatenation of two pattern sequences. -/
def Pat.append : Pat → Pat → Pat
  | .nil, q => q
  | .lit c r, q => .lit c (r.append q)
  | .named n r, q => .named n (r.append q)
  | .wildcard r, q => .wildcard (r.append q)
  | .opt i r, q => .opt i (r.append q)

/-- Weight of a pattern: one per token, counting the bodies of optional
groups; bounds the recursion depth of the matcher. -/
def Pat.w : Pat → Nat
  | .nil => 0
  | .lit _ r => 1 + r.w
  | .named _ r => 1 + r.w
  | .wildcard r => 1 + r.w
  | .opt i r => 1 + i.w + r.w

/-- Characters allowed in a segment name (default segmentNameCharset). -/
def isNameChar (c : Char) : Bool := c.isAlphanum

/-- Characters a named segment matches (default segmentValueCharset). -/
def isValueChar (c : Char) : Bool :=
  c.isAlphanum || c = '-' || c = '_' || c = '~' || c = ' ' || c = '%'

/-- Recursive-descent compiler for a pattern string; parses a sequence of
tokens until a closing parenthesis or the end of input, returning the
unread remainder.  The fuel exceeds the input length wherever the parser
is called, and every recursive call shrinks the input, so the fuel never
runs out on those calls. -/
def parseSeq : Nat → List Char → Option (Pat × List Char)
  | 0, _ => none
  | _ + 1, [] => some (.nil, [])
  | fuel + 1, c :: cs =>
    if c = ')' then some (.nil, c :: cs)
    else if c = '(' then
      match parseSeq fuel cs with
      | some (inner, ')' :: cs') =>
        match inner with
        | .nil => none
        | _ =>
          match parseSeq fuel cs' with
          | some (rest, rem) => some (.opt inner rest, rem)
          | none => none
      | _ => none
    else if c = ':' then
      let nm := cs.takeWhile isNameChar
      match nm with
      | [] => none
      | _ =>
        match parseSeq fuel (cs.drop nm.length) with
        | some (rest, rem) => some (.named (String.mk nm) rest, rem)
        | none => none
    else if c = '*' then
      match parseSeq fuel cs with
      | some (rest, rem) => some (.wildcard rest, rem)
      | none => none
    else
      match parseSeq fuel cs with
      | some (rest, rem) => some (.lit c rest, rem)
      | none => none

/-- Compile a pattern string; fails (as the collaborator throws) on the
empty string, unbalanced parentheses, empty groups or empty names. -/
def parsePattern (s : String) : Option Pat :=
  if s = "" then none
  else
    match parseSeq (s.length + 1) s.data with
    | some (p, []) => some p
    | _ => none

/-- Captured (name, text) pairs in capture order. -/
abbrev Caps := List (String × String)

/-- First success of a function over a list of candidates. -/
def firstSome? (l : List α) (f : α → Option β) : Option β :=
  match l with
  | [] => none
  | a :: as =>
    match f a with
    | some b => some b
    | none => firstSome? as f

/-- Candidate capture lengths for a greedy one-or-more group: longest
first, down to one. -/
def greedyLens (m : Nat) : List Nat :=
  (List.range m).reverse.map (· + 1)

/-- Anchored backtracking matcher, mirroring the regular expression the
collaborator compiles: literals match themselves, a named segment is a
greedy one-or-more run of segment-value characters, a wildcard is a lazy
any-character run captured as underscore, and an optional group is tried
with its body first.  Backtracking order follows the regex engine, so the
first success returned is the regex match.  The fuel argument bounds the
recursion depth; each level strictly shrinks the pattern weight, so any
fuel above the weight is sufficient. -/
def mSeq : Nat → Pat → List Char → Caps → Option Caps
  | 0, _, _, _ => none
  | _ + 1, .nil, input, caps => if input = [] then some caps else none
  | fuel + 1, .lit c rest, input, caps =>
    match input with
    | [] => none
    | c' :: input' => if c = c' then mSeq fuel rest input' caps else none
  | fuel + 1, .named n rest, input, caps =>
    let m := (input.takeWhile isValueChar).length
    firstSome? (greedyLens m) (fun k =>
      mSeq fuel rest (input.drop k) (caps ++ [(n, String.mk (input.take k))]))
  | fuel + 1, .wildcard rest, input, caps =>
    firstSome? (List.range (input.length + 1)) (fun k =>
      mSeq fuel rest (input.drop k) (caps ++ [("_", String.mk (input.take k))]))
  | fuel + 1, .opt inner rest, input, caps =>
    match mSeq fuel (inner.append rest) input caps with
    | some r => some r
    | none => mSeq fuel rest input caps

/-- Run the matcher on a path and build the result object from the
captures in order (a null result becomes the empty mapping, as the
callers write match(...) or else the empty object). -/
def matchParams (p : Pat) (path : String) : Params :=
  match mSeq (p.w + 1) p path.data [] with
  | some caps => caps.foldl (fun acc kv => insertP acc kv.1 (Val.str kv.2)) []
  | none => []

/-- Declared capture names in order (the names property of a compiled
pattern); wildcards are declared under the underscore key. -/
def patNames : Pat → List String
  | .nil => []
  | .lit _ rest => patNames rest
  | .named n rest => n :: patNames rest
  | .wildcard rest => "_" :: patNames rest
  | .opt inner rest => patNames inner ++ patNames rest

/-- Names of segments that are required when stringifying: the named
segments not enclosed in any optional group. -/
def requiredNames : Pat → List String
  | .nil => []
  | .lit _ rest => requiredNames rest
  | .named n rest => n :: requiredNames rest
  | .wildcard rest => requiredNames rest
  | .opt _ rest => requiredNames rest

/-- Whether any named segment or wildcard inside the pattern has a
provided (non-nullish) value; decides whether an optional group is
included when stringifying. -/
def providedAny (look : String → Option Val) : Pat → Bool
  | .nil => false
  | .lit _ rest => providedAny look rest
  | .named n rest => (look n).isSome || providedAny look rest
  | .wildcard rest => (look "_").isSome || providedAny look rest
  | .opt inner rest => providedAny look inner || providedAny look rest

/-- Stringify a pattern against a value lookup: literals are emitted,
named segments and wildcards take their looked-up value and fail (the
collaborator throws) when it is absent, and an optional group is emitted
only when one of its captures has a provided value.  The error carries
the leftmost missing key. -/
def sSeq (look : String → Option Val) : Pat → Except String String
  | .nil => .ok ""
  | .lit c rest => (sSeq look rest).map (fun t => c.toString ++ t)
  | .named n rest =>
    match look n with
    | some v => (sSeq look rest).map (fun t => valToString v ++ t)
    | none => .error n
  | .wildcard rest =>
    match look "_" with
    | some v => (sSeq look rest).map (fun t => valToString v ++ t)
    | none => .error "_"
  | .opt inner rest =>
    if providedAny look inner then
      match sSeq look inner with
      | .ok s => (sSeq look rest).map (fun t => s ++ t)
      | .error e => .error e
    else
      sSeq look rest

/-- Error kinds surfaced by the library: an invalid absolute URL handed
to the URL constructor, a pattern string the compiler rejects, and the
pattern-mismatch failure raised when stringifying without a required
segment value. -/
inductive Err where
  | invalidURL
  | badPattern
  | patternMismatch (key : String)
  deriving DecidableEq, Repr

/-- Process-wide mutable state of router.js: the default pattern set by
setPattern and the cache of compiled parsers keyed by pattern string. -/
structure RouterState where
  defaultPattern : String
  cache : List (String × Pat)
  deriving DecidableEq, Repr

/-- Property lookup in the cache object. -/
def lookupCache : List (String × Pat) → String → Option Pat
  | [], _ => none
  | kv :: t, k => if kv.1 = k then some kv.2 else lookupCache t k

/-- The default catch-all pattern. -/
def DEFAULT_PATTERN : String := "(*)"

/-- The module-initialization state: the default pattern is the
catch-all, and the cache is seeded with its compiled form. -/
def initialState : RouterState :=
  { defaultPattern := DEFAULT_PATTERN,
    cache := [(DEFAULT_PATTERN, Pat.opt (Pat.wildcard Pat.nil) Pat.nil)] }

/-- router.js getParser with its state effect: resolve the argument
against the default pattern, return the cached parser when present, and
otherwise compile and append to the cache (a failed compilation throws
before anything is cached).  The argument is none when the caller passed
undefined. -/
def getParserS (st : RouterState) (patArg : Option String) :
    Except Err Pat × RouterState :=
  let key := patArg.getD st.defaultPattern
  match lookupCache st.cache key with
  | some p => (.ok p, st)
  | none =>
    match parsePattern key with
    | some p => (.ok p, { st with cache := st.cache ++ [(key, p)] })
    | none => (.error .badPattern, st)

/-- Result of getParser, ignoring the cache-fill effect (which never
changes any result). -/
def getParserE (st : RouterState) (patArg : Option String) : Except Err Pat :=
  (getParserS st patArg).1

/-- router.js setPattern: replace the default pattern (argument omitted
means reset to the catch-all). -/
def setPatternS (st : RouterState) (patArg : Option String) : RouterState :=
  { st with defaultPattern := patArg.getD DEFAULT_PATTERN }

/-- An external call into router.js, for describing reachable states. -/
inductive RouterOp where
  | setPat (patArg : Option String)
  | getPat (patArg : Option String)

/-- State effect of one call. -/
def applyOp (st : RouterState) : RouterOp → RouterState
  | .setPat p => setPatternS st p
  | .getPat p => (getParserS st p).2

/-- State after a sequence of calls. -/
def applyOps (st : RouterState) (ops : List RouterOp) : RouterState :=
  ops.foldl applyOp st

/-- Cache consistency: every cached parser is the compilation of its
key.  This holds initially and is preserved by every call. -/
def WFState (st : RouterState) : Prop :=
  ∀ s p, lookupCache st.cache s = some p → parsePattern s = some p

/-- parsing.js toOwnParams on a resolved location: empty mapping when no
pattern was supplied (a falsy pattern, that is undefined or the empty
string), otherwise the pattern match of the slash-trimmed pathname. -/
def toOwnParamsLoc (st : RouterState) (loc : Location) (pat : Option String) :
    Except Err Params :=
  match pat with
  | none => .ok []
  | some s =>
    if s = "" then .ok []
    else
      match getParserE st (some s) with
      | .error e => .error e
      | .ok p => .ok (matchParams p (trimSlashes loc.pathname))

/-- parsing.js toParams on a resolved location: the spread of state, hash
parameters, search parameters and pathname parameters, in that order, so
that later sources override earlier ones. -/
def toParamsLoc (st : RouterState) (loc : Location) (pat : Option String) :
    Except Err Params :=
  match toOwnParamsLoc st loc pat with
  | .error e => .error e
  | .ok pathParams =>
    .ok (jsMerge (jsMerge (jsMerge loc.state (qsParse loc.hash)) (qsParse loc.search)) pathParams)

/-- Modelled from the spec: the WHATWG URL constructor used by
parsing.js toLocation for string arguments.  It accepts only absolute
URLs: the string must begin with a scheme (a letter followed by letters,
digits, plus, minus or dot, then a colon); anything else, in particular
every relative URL, throws.  On success the components are split out;
search keeps its leading question mark and hash its leading hash sign,
as the URL object exposes them. -/
def isSchemeChar (c : Char) : Bool :=
  c.isAlphanum || c = '+' || c = '-' || c = '.'

/-- Whether the string starts with a URL scheme followed by a colon. -/
def hasScheme (s : String) : Bool :=
  match s.data with
  | [] => false
  | c :: _ =>
    c.isAlpha &&
      ((s.data.drop (s.data.takeWhile isSchemeChar).length).head? == some ':')

/-- Component split of an absolute hierarchical URL. -/
def splitURL (s : String) : Location :=
  let cs := s.data
  let afterScheme := cs.drop ((cs.takeWhile (fun c => c ≠ ':')).length + 1)
  let rest :=
    if afterScheme.take 2 = ['/', '/'] then
      (afterScheme.drop 2).dropWhile (fun c => c ≠ '/' && c ≠ '?' && c ≠ '#')
    else afterScheme
  let pathname := rest.takeWhile (fun c => c ≠ '?' && c ≠ '#')
  let afterPath := rest.drop pathname.length
  let search := afterPath.takeWhile (fun c => c ≠ '#')
  let hash := afterPath.drop search.length
  { pathname := String.mk (if pathname = [] then ['/'] else pathname),
    search := String.mk search,
    hash := String.mk hash,
    state := [] }

/-- The URL constructor: absolute URLs are split, everything else is an
invalid-URL error. -/
def parseURL (s : String) : Except Err Location :=
  if hasScheme s then .ok (splitURL s) else .error .invalidURL

/-- The location argument accepted by toParams and toOwnParams: null or
undefined (use the ambient location), a URL string, or a location
object. -/
inductive LocArg where
  | amb
  | url (s : String)
  | obj (l : Location)

/-- parsing.js toLocation combined with the isNil check: nullish
arguments resolve to the ambient location, objects pass through, strings
go through the URL constructor. -/
def toLocationE (ambLoc : Location) : LocArg → Except Err Location
  | .amb => .ok ambLoc
  | .obj l => .ok l
  | .url s => parseURL s

/-- parsing.js toParams on an unresolved argument. -/
def toParamsA (st : RouterState) (ambLoc : Location) (arg : LocArg)
    (pat : Option String) : Except Err Params :=
  match toLocationE ambLoc arg with
  | .error e => .error e
  | .ok loc => toParamsLoc st loc pat

/-- parsing.js toOwnParams on an unresolved argument. -/
def toOwnParamsA (st : RouterState) (ambLoc : Location) (arg : LocArg)
    (pat : Option String) : Except Err Params :=
  match toLocationE ambLoc arg with
  | .error e => .error e
  | .ok loc => toOwnParamsLoc st loc pat

/-- parsing.js stringify: resolve the parser (an omitted pattern falls
back to the default pattern), build the pathname-parameter object as the
spread of an underscore default over pick(names, params) — under
JavaScript lookup semantics a name absent from params is undefined and
shadows the default — stringify it (an empty result becomes a lone
slash), and append the remaining parameters as a query string when it is
non-empty. -/
def stringifyW (st : RouterState) (ps : Params) (pat : Option String) :
    Except Err String :=
  match getParserE st pat with
  | .error e => .error e
  | .ok p =>
    let names := patNames p
    let look : String → Option Val := fun k =>
      if names.contains k then getP ps k
      else if k = "_" then some (.str "") else none
    match sSeq look p with
    | .error key => .error (.patternMismatch key)
    | .ok pathRaw =>
      let pathname := if pathRaw = "" then "/" else pathRaw
      let query := qsStringify (omitKeys names ps)
      .ok (if query = "" then pathname else pathname ++ "?" ++ query)

/-- A navigation destination: a literal URL string, a parameter mapping,
or an updater function of the current ambient parameters. -/
inductive Dest where
  | url (s : String)
  | params (p : Params)
  | fn (f : Params → Params)

/-- parsing.js toUrl: strings pass through unchanged; a mapping is
stringified; an updater is applied to the parameters extracted from the
ambient location and its result stringified. -/
def toUrlW (st : RouterState) (ambLoc : Location) (dest : Dest)
    (pat : Option String) : Except Err String :=
  match dest with
  | .url s => .ok s
  | .params p => stringifyW st p pat
  | .fn f =>
    match toParamsLoc st ambLoc pat with
    | .error e => .error e
    | .ok cur => stringifyW st (f cur) pat

/-- navigation.js navigate reduced to its produced effect: the URL built
by toUrl and the push-or-replace flag. -/
def navigateW (st : RouterState) (ambLoc : Location) (dest : Dest)
    (pat : Option String) (replace : Bool) : Except Err (String × Bool) :=
  match toUrlW st ambLoc dest pat with
  | .error e => .error e
  | .ok u => .ok (u, replace)

/-- The slice of a parent router a descendant depends on: its
accumulated root pattern and its root parameters (at the root context
both are empty). -/
structure ParentRouter where
  rootPattern : String
  rootParams : Params
  deriving DecidableEq, Repr

/-- The argument of routable: a literal pattern string or a params array
configuration. -/
inductive PatternSpec where
  | str (s : String)
  | byNames (names : List String)

/-- routable.js toPattern: strings pass through; a params array becomes a
chain of optional groups, one per name, in order; an empty array becomes
the empty string. -/
def toPattern : PatternSpec → String
  | .str s => s
  | .byNames ns =>
    if ns.length < 1 then ""
    else String.join (ns.map (fun n => "(/:" ++ n ++ ")"))

/-- The derived routing-scope values exposed by the routable store. -/
structure ScopeOut where
  ownPattern : String
  rootPattern : String
  pattern : String
  params : Params
  rootParams : Params
  rest : Val
  deriving DecidableEq, Repr

/-- routable.js derived-store body: concatenate the parent root pattern
with the own pattern, terminate with a catch-all, extract all parameters
(the underscore capture, default empty string, becomes rest and the
remainder becomes params), and recompute the pathname-only parameters of
the root pattern plus catch-all, minus the underscore key, as
rootParams. -/
def deriveScope (st : RouterState) (parent : ParentRouter) (spec : PatternSpec)
    (loc : Location) : Except Err ScopeOut :=
  let ownPattern := toPattern spec
  let rootPattern := parent.rootPattern ++ ownPattern
  let pattern := rootPattern ++ "(*)"
  match toParamsLoc st loc (some pattern) with
  | .error e => .error e
  | .ok allParams =>
    match toOwnParamsLoc st loc (some (rootPattern ++ "(*)")) with
    | .error e => .error e
    | .ok own =>
      .ok { ownPattern := ownPattern,
            rootPattern := rootPattern,
            pattern := pattern,
            params := removeKey allParams "_",
            rootParams := removeKey own "_",
            rest := (getP allParams "_").getD (.str "") }

/-- routable.js goTo: when the destination is a parameter mapping, the
parent root parameters are spread under it (destination keys override);
the result is handed to navigate with the scope's full pattern. -/
def scopeGoTo (st : RouterState) (ambLoc : Location) (parent : ParentRouter)
    (pattern : String) (dest : Dest) (replace : Bool) :
    Except Err (String × Bool) :=
  let navArg :=
    match dest with
    | .params d => Dest.params (jsMerge parent.rootParams d)
    | d => d
  navigateW st ambLoc navArg (some pattern) replace

/-- The anchor element values the click handler reads: the target DOM
property (empty string when the attribute is absent), and the href and
replace attributes (none models a null getAttribute result). -/
structure AnchorEl where
  targetProp : String
  hrefAttr : Option String
  replaceAttr : Option String
  deriving DecidableEq, Repr

/-- The click-event values the handler reads. -/
structure ClickEvent where
  button : Int
  metaKey : Bool
  altKey : Bool
  ctrlKey : Bool
  shiftKey : Bool
  defaultPrevented : Bool
  currentTarget : Option AnchorEl
  deriving DecidableEq, Repr

/-- Observable effect of the click handler on the browser default and on
navigation. -/
inductive ClickOutcome where
  | untouched
  | prevented
  | navigated (href : String) (replace : Bool)
  deriving DecidableEq, Repr

/-- The replace flag derived from the replace attribute: set unless the
attribute is absent or literally the string false. -/
def replaceOf (el : AnchorEl) : Bool :=
  match el.replaceAttr with
  | none => false
  | some s => s ≠ "false"

/-- navigation.js goTo(e), the anchor click handler: a missing event or
current target does nothing; when the default is not already prevented,
the button is the primary one, the target is absent or self and no
modifier key is held, the default is suppressed and, if the href
attribute is a string, navigation is invoked with the derived replace
flag. -/
def goToClick : Option ClickEvent → ClickOutcome
  | none => .untouched
  | some ev =>
    match ev.currentTarget with
    | none => .untouched
    | some el =>
      let isModified := ev.metaKey || ev.altKey || ev.ctrlKey || ev.shiftKey
      if ¬ev.defaultPrevented ∧ ev.button = 0 ∧
          (el.targetProp = "" ∨ el.targetProp = "_self") ∧ ¬(isModified = true) then
        match el.hrefAttr with
        | some h => .navigated h (replaceOf el)
        | none => .prevented
      else .untouched

/-- Run a sequence of getParser calls, counting the calls that find no
cached entry and therefore compile. -/
def runCalls (st : RouterState) : List String → RouterState × Nat
  | [] => (st, 0)
  | s :: rest =>
    let missed := (lookupCache st.cache s).isNone
    let st' := (getParserS st (some s)).2
    let out := runCalls st' rest
    (out.1, (if missed then 1 else 0) + out.2)

/-- Pure result of compiling a pattern string, for relating getParser
results on consistent caches. -/
def compileE (s : String) : Except Err Pat :=
  match parsePattern s with
  | some p => .ok p
  | none => .error .badPattern

/-- Patterns whose stringified pathname, when non-empty, necessarily
begins with a slash: the sequence opens with a literal slash, or with
optional groups that themselves satisfy the property followed by a
remainder that does. -/
def headSlashOk : Pat → Bool
  | .nil => true
  | .lit c _ => c = '/'
  | .named _ _ => false
  | .wildcard _ => false
  | .opt inner rest => headSlashOk inner && headSlashOk rest

theorem getP_eq_none_of_not_contains {ps : Params} {k : String}
    (h : containsKey ps k = false) : getP ps k = none := by
  induction ps with
  | nil => rfl
  | cons kv t ih =>
    simp only [containsKey, List.any_cons, Bool.or_eq_false_iff,
      decide_eq_false_iff_not] at h
    simp only [getP, ih (by simpa [containsKey] using h.2)]
    simp [h.1]

theorem updateAll_of_not_contains {ps : Params} {k : String} {v : Val}
    (h : containsKey ps k = false) : updateAll ps k v = ps := by
  induction ps with
  | nil => rfl
  | cons kv t ih =>
    simp only [containsKey, List.any_cons, Bool.or_eq_false_iff,
      decide_eq_false_iff_not] at h
    simp [updateAll, h.1, ih (by simpa [containsKey] using h.2)]

theorem getP_updateAll_ne {ps : Params} {k k' : String} {v : Val}
    (h : k' ≠ k) : getP (updateAll ps k v) k' = getP ps k' := by
  induction ps with
  | nil => rfl
  | cons kv t ih =>
    have hkk : k ≠ k' := fun e => h e.symm
    simp only [updateAll, getP, ih]
    by_cases hk : kv.1 = k
    · cases ht : getP t k' <;> simp [ht, hk, hkk]
    · cases ht : getP t k' <;> simp [ht, hk]

theorem getP_updateAll_self {ps : Params} {k : String} {v : Val}
    (h : containsKey ps k = true) : getP (updateAll ps k v) k = some v := by
  induction ps with
  | nil => simp [containsKey] at h
  | cons kv t ih =>
    by_cases ht : containsKey t k = true
    · simp [updateAll, getP, ih ht]
    · have ht' : containsKey t k = false := by simpa using ht
      have hk : kv.1 = k := by
        simp only [containsKey, List.any_cons, Bool.or_eq_true,
          decide_eq_true_eq] at h
        cases h with
        | inl h => exact h
        | inr h =>
          exact absurd (show containsKey t k = true from h) (by simp [ht'])
      have htail : getP (updateAll t k v) k = none := by
        rw [updateAll_of_not_contains ht', getP_eq_none_of_not_contains ht']
      simp [updateAll, getP, hk, htail]

theorem getP_append (a b : Params) (k : String) :
    getP (a ++ b) k = (getP b k).or (getP a k) := by
  induction a with
  | nil => cases hb : getP b k <;> simp [getP, Option.or, hb]
  | cons kv t ih =>
    rw [List.cons_append]
    show (match getP (t ++ b) k with
      | some v => some v
      | none => if kv.1 = k then some kv.2 else none) = _
    rw [ih]
    cases hb : getP b k with
    | some v => simp [getP, Option.or]
    | none =>
      cases ht : getP t k with
      | some v => simp [getP, Option.or, ht]
      | none => simp [getP, Option.or, ht]

theorem getP_insertP (ps : Params) (k : String) (v : Val) (k' : String) :
    getP (insertP ps k v) k' = if k' = k then some v else getP ps k' := by
  unfold insertP
  by_cases hc : containsKey ps k = true
  · simp only [hc, if_true]
    by_cases he : k' = k
    · subst he; simp [getP_updateAll_self hc]
    · simp [he, getP_updateAll_ne he]
  · have hc' : containsKey ps k = false := by simpa using hc
    simp only [hc', Bool.false_eq_true, if_false, getP_append]
    by_cases he : k' = k
    · subst he
      simp [getP, getP_eq_none_of_not_contains hc', Option.or]
    · have hkk : k ≠ k' := fun e => he e.symm
      simp [getP, hkk, he, Option.or]

theorem getP_jsMerge (a b : Params) (k : String) :
    getP (jsMerge a b) k = (getP b k).or (getP a k) := by
  induction b generalizing a with
  | nil => simp [jsMerge, getP, Option.or]
  | cons kv t ih =>
    show getP (jsMerge (insertP a kv.1 kv.2) t) k = _
    rw [ih]
    simp only [getP, getP_insertP]
    cases htk : getP t k with
    | some v => simp [Option.or]
    | none =>
      by_cases he : k = kv.1
      · simp [he, Option.or]
      · have hkk : kv.1 ≠ k := fun e => he e.symm
        simp [he, hkk, Option.or]

theorem lookupCache_append (a b : List (String × Pat)) (k : String) :
    lookupCache (a ++ b) k = (lookupCache a k).or (lookupCache b k) := by
  induction a with
  | nil => cases hb : lookupCache b k <;> simp [lookupCache, Option.or, hb]
  | cons kv t ih =>
    rw [List.cons_append]
    show (if kv.1 = k then some kv.2 else lookupCache (t ++ b) k) = _
    by_cases hk : kv.1 = k
    · simp [lookupCache, hk, Option.or]
    · simp [lookupCache, hk, ih]

theorem wf_initialState : WFState initialState := by
  intro s p h
  simp only [initialState, lookupCache, DEFAULT_PATTERN] at h
  split at h
  · next heq =>
    subst heq
    cases h
    rfl
  · next => cases h

theorem wf_setPatternS {st : RouterState} (h : WFState st) (patArg : Option String) :
    WFState (setPatternS st patArg) := h

theorem wf_getParserS {st : RouterState} (h : WFState st) (patArg : Option String) :
    WFState (getParserS st patArg).2 := by
  cases hl : lookupCache st.cache (patArg.getD st.defaultPattern) with
  | some p =>
    simp only [getParserS, hl]
    exact h
  | none =>
    cases hp : parsePattern (patArg.getD st.defaultPattern) with
    | some p =>
      simp only [getParserS, hl, hp]
      intro s q hq
      simp only at hq
      rw [lookupCache_append] at hq
      cases hc : lookupCache st.cache s with
      | some r =>
        rw [hc] at hq
        simp only [Option.or] at hq
        injection hq with hrq
        rw [← hrq]
        exact h s r hc
      | none =>
        rw [hc] at hq
        simp only [Option.or, lookupCache] at hq
        split at hq
        · next heq =>
          subst heq
          cases hq
          exact hp
        · next => cases hq
    | none =>
      simp only [getParserS, hl, hp]
      exact h

theorem wf_applyOps (ops : List RouterOp) {st : RouterState} (h : WFState st) :
    WFState (applyOps st ops) := by
  induction ops generalizing st with
  | nil => exact h
  | cons op rest ih =>
    cases op with
    | setPat p => exact ih (wf_setPatternS h p)
    | getPat p => exact ih (wf_getParserS h p)

theorem getParserE_of_WF {st : RouterState} (h : WFState st) (s : String) :
    getParserE st (some s) = compileE s := by
  unfold getParserE getParserS compileE
  cases hl : lookupCache st.cache s with
  | some p => simp [hl, h s p hl]
  | none => cases hp : parsePattern s <;> simp [hl, hp]

theorem toOwnParamsLoc_stateFree {st1 st2 : RouterState} (h1 : WFState st1)
    (h2 : WFState st2) (loc : Location) (s : String) :
    toOwnParamsLoc st1 loc (some s) = toOwnParamsLoc st2 loc (some s) := by
  simp only [toOwnParamsLoc, getParserE_of_WF h1, getParserE_of_WF h2]

theorem toParamsLoc_stateFree {st1 st2 : RouterState} (h1 : WFState st1)
    (h2 : WFState st2) (loc : Location) (s : String) :
    toParamsLoc st1 loc (some s) = toParamsLoc st2 loc (some s) := by
  unfold toParamsLoc
  rw [toOwnParamsLoc_stateFree h1 h2 loc s]

theorem stringifyW_stateFree {st1 st2 : RouterState} (h1 : WFState st1)
    (h2 : WFState st2) (ps : Params) (s : String) :
    stringifyW st1 ps (some s) = stringifyW st2 ps (some s) := by
  unfold stringifyW
  rw [getParserE_of_WF h1 s, getParserE_of_WF h2 s]

theorem toUrlW_stateFree {st1 st2 : RouterState} (h1 : WFState st1)
    (h2 : WFState st2) (ambLoc : Location) (dest : Dest) (s : String) :
    toUrlW st1 ambLoc dest (some s) = toUrlW st2 ambLoc dest (some s) := by
  unfold toUrlW
  cases dest with
  | url u => rfl
  | params p => exact stringifyW_stateFree h1 h2 p s
  | fn f =>
    rw [toParamsLoc_stateFree h1 h2 ambLoc s]
    cases toParamsLoc st2 ambLoc (some s) with
    | error e => rfl
    | ok cur => exact stringifyW_stateFree h1 h2 (f cur) s

theorem length_filter_imp {α} (l : List α) (p q : α → Bool)
    (h : ∀ a, p a = true → q a = true) :
    (l.filter p).length ≤ (l.filter q).length := by
  induction l with
  | nil => simp
  | cons a t ih =>
    by_cases hp : p a = true
    · have hq := h a hp
      simp only [List.filter_cons, hp, hq, if_true, List.length_cons]
      omega
    · have hp' : p a = false := by simpa using hp
      by_cases hq : q a = true
      · simp only [List.filter_cons, hp', hq, Bool.false_eq_true, if_false,
          if_true, List.length_cons]
        omega
      · have hq' : q a = false := by simpa using hq
        simp only [List.filter_cons, hp', hq', Bool.false_eq_true, if_false]
        exact ih

theorem length_filter_drop_mem {l : List String} {s : String} {p : String → Bool}
    (hs : s ∈ l) (hp : p s = true) :
    ((l.filter fun t => !(t == s) && p t).length) + 1 ≤ (l.filter p).length := by
  induction l with
  | nil => cases hs
  | cons a t ih =>
    rw [List.filter_cons, List.filter_cons]
    by_cases ha : a = s
    · have h1 : (!(a == s) && p a) = false := by simp [ha]
      have h2 : p a = true := ha ▸ hp
      rw [h1, h2]
      simp only [Bool.false_eq_true, if_false, if_true, List.length_cons]
      have hmono := length_filter_imp t (fun t => !(t == s) && p t) p
        (fun x hx => ((Bool.and_eq_true _ _).mp hx).2)
      omega
    · have hs' : s ∈ t := by
        cases hs with
        | head => exact absurd rfl ha
        | tail _ h => exact h
      have hne : (!(a == s)) = true := by simp [ha]
      have hmain := ih hs'
      by_cases hpa : p a = true
      · rw [show (!(a == s) && p a) = true by rw [hne, hpa]; rfl, hpa]
        simp only [if_true, List.length_cons]
        omega
      · have hpa2 : p a = false := by simpa using hpa
        rw [show (!(a == s) && p a) = false by rw [hne, hpa2]; rfl, hpa2]
        simp only [Bool.false_eq_true, if_false]
        exact hmain

theorem getParserS_hit {st : RouterState} {s : String} {p : Pat}
    (h : lookupCache st.cache s = some p) :
    getParserS st (some s) = (.ok p, st) := by
  simp [getParserS, h]

theorem getParserS_miss_ok {st : RouterState} {s : String} {p : Pat}
    (hl : lookupCache st.cache s = none) (hp : parsePattern s = some p) :
    getParserS st (some s) = (.ok p, { st with cache := st.cache ++ [(s, p)] }) := by
  simp [getParserS, hl, hp]

theorem getParserS_miss_bad {st : RouterState} {s : String}
    (hl : lookupCache st.cache s = none) (hp : parsePattern s = none) :
    getParserS st (some s) = (.error .badPattern, st) := by
  simp [getParserS, hl, hp]

theorem runCalls_le_aux (ss : List String) :
    ∀ st : RouterState, (∀ t ∈ ss, (parsePattern t).isSome) →
      (runCalls st ss).2 ≤
        (ss.dedup.filter fun t => (lookupCache st.cache t).isNone).length := by
  induction ss with
  | nil =>
    intro st _
    simp [runCalls]
  | cons s rest ih =>
    intro st hv
    have hrest : ∀ t ∈ rest, (parsePattern t).isSome :=
      fun t ht => hv t (List.mem_cons_of_mem _ ht)
    cases hl : lookupCache st.cache s with
    | some p =>
      have hst : (getParserS st (some s)).2 = st := by
        rw [getParserS_hit hl]
      have hcount : (runCalls st (s :: rest)).2 = (runCalls st rest).2 := by
        simp [runCalls, hl, hst]
      rw [hcount]
      refine le_trans (ih st hrest) ?_
      by_cases hm : s ∈ rest
      · rw [List.dedup_cons_of_mem hm]
      · rw [List.dedup_cons_of_not_mem hm]
        simp [List.filter_cons, hl]
    | none =>
      have hps : (parsePattern s).isSome := hv s (List.mem_cons_self s rest)
      obtain ⟨p, hp⟩ := Option.isSome_iff_exists.mp hps
      have hst : (getParserS st (some s)).2 =
          { st with cache := st.cache ++ [(s, p)] } := by
        rw [getParserS_miss_ok hl hp]
      have hcount : (runCalls st (s :: rest)).2 =
          1 + (runCalls { st with cache := st.cache ++ [(s, p)] } rest).2 := by
        simp [runCalls, hl, hst]
      rw [hcount]
      have hpred : ∀ t,
          ((lookupCache (st.cache ++ [(s, p)]) t).isNone : Bool) =
            (!(t == s) && (lookupCache st.cache t).isNone) := by
        intro t
        rw [lookupCache_append]
        by_cases ht : t = s
        · subst ht
          simp [hl, lookupCache, Option.or]
        · have hsingle : lookupCache [(s, p)] t = none := by
            have : s ≠ t := fun e => ht e.symm
            simp [lookupCache, this]
          rw [hsingle]
          cases hc : lookupCache st.cache t <;> simp [Option.or, ht]
      have hfiltereq :
          (rest.dedup.filter fun t =>
            (lookupCache ({ st with cache := st.cache ++ [(s, p)] } : RouterState).cache t).isNone)
          = rest.dedup.filter fun t => !(t == s) && (lookupCache st.cache t).isNone := by
        apply List.filter_congr
        intro t _
        exact hpred t
      have h1 := ih { st with cache := st.cache ++ [(s, p)] } hrest
      rw [hfiltereq] at h1
      have hgoal : 1 + (rest.dedup.filter fun t =>
          !(t == s) && (lookupCache st.cache t).isNone).length ≤
          ((s :: rest).dedup.filter fun t => (lookupCache st.cache t).isNone).length := by
        by_cases hm : s ∈ rest
        · rw [List.dedup_cons_of_mem hm]
          have hdrop := @length_filter_drop_mem rest.dedup s
            (fun t => (lookupCache st.cache t).isNone)
            (List.mem_dedup.mpr hm) (by simp [hl])
          simp only at hdrop
          omega
        · rw [List.dedup_cons_of_not_mem hm]
          have hpheadb : ((lookupCache st.cache s).isNone : Bool) = true := by simp [hl]
          simp only [List.filter_cons, hpheadb, if_true, List.length_cons]
          have := length_filter_imp rest.dedup
            (fun t => !(t == s) && (lookupCache st.cache t).isNone)
            (fun t => (lookupCache st.cache t).isNone)
            (fun x hx => by
              simp only [Bool.and_eq_true] at hx
              exact hx.2)
          omega
      omega

theorem requiredNames_mem_patNames {p : Pat} {n : String}
    (h : n ∈ requiredNames p) : n ∈ patNames p := by
  induction p with
  | nil => cases h
  | lit c rest ih => simpa [patNames] using ih (by simpa [requiredNames] using h)
  | named m rest ih =>
    simp only [requiredNames, List.mem_cons] at h
    rcases h with h | h
    · simp [patNames, h]
    · simp [patNames, ih h]
  | wildcard rest ih =>
    simp only [requiredNames] at h
    simp [patNames, ih h]
  | opt inner rest ihI ihR =>
    simp only [requiredNames] at h
    simp [patNames, ihR h]

theorem sSeq_error_of_required {p : Pat} {look : String → Option Val} {n : String}
    (hreq : n ∈ requiredNames p) (habs : look n = none) :
    ∃ key, sSeq look p = .error key := by
  induction p with
  | nil => cases hreq
  | lit c rest ih =>
    obtain ⟨key, hk⟩ := ih (by simpa [requiredNames] using hreq)
    exact ⟨key, by simp [sSeq, hk, Except.map]⟩
  | named m rest ih =>
    cases hlm : look m with
    | none => exact ⟨m, by simp [sSeq, hlm]⟩
    | some v =>
      have hn : n ∈ requiredNames rest := by
        simp only [requiredNames, List.mem_cons] at hreq
        rcases hreq with h | h
        · subst h
          rw [habs] at hlm
          cases hlm
        · exact h
      obtain ⟨key, hk⟩ := ih hn
      exact ⟨key, by simp [sSeq, hlm, hk, Except.map]⟩
  | wildcard rest ih =>
    cases hlw : look "_" with
    | none => exact ⟨"_", by simp [sSeq, hlw]⟩
    | some v =>
      obtain ⟨key, hk⟩ := ih (by simpa [requiredNames] using hreq)
      exact ⟨key, by simp [sSeq, hlw, hk, Except.map]⟩
  | opt inner rest ihI ihR =>
    obtain ⟨key, hk⟩ := ihR (by simpa [requiredNames] using hreq)
    by_cases hprov : providedAny look inner = true
    · cases hsi : sSeq look inner with
      | error e => exact ⟨e, by simp [sSeq, hprov, hsi]⟩
      | ok s1 => exact ⟨key, by simp [sSeq, hprov, hsi, hk, Except.map]⟩
    · have hprov2 : providedAny look inner = false := by simpa using hprov
      exact ⟨key, by simp [sSeq, hprov2, hk]⟩

theorem sSeq_headSlash {p : Pat} {look : String → Option Val} :
    ∀ {out : String}, headSlashOk p = true → sSeq look p = .ok out →
      out = "" ∨ out.data.head? = some '/' := by
  induction p with
  | nil =>
    intro out _ hs
    left
    simp only [sSeq] at hs
    cases hs
    rfl
  | lit c rest ih =>
    intro out hok hs
    have hc : c = '/' := by simpa [headSlashOk] using hok
    simp only [sSeq] at hs
    cases hrest : sSeq look rest with
    | error e => rw [hrest] at hs; cases hs
    | ok t =>
      rw [hrest] at hs
      simp only [Except.map] at hs
      cases hs
      right
      subst hc
      rfl
  | named m rest ih =>
    intro out hok _
    simp [headSlashOk] at hok
  | wildcard rest ih =>
    intro out hok _
    simp [headSlashOk] at hok
  | opt inner rest ihI ihR =>
    intro out hok hs
    have hokI : headSlashOk inner = true := by
      simp only [headSlashOk, Bool.and_eq_true] at hok
      exact hok.1
    have hokR : headSlashOk rest = true := by
      simp only [headSlashOk, Bool.and_eq_true] at hok
      exact hok.2
    simp only [sSeq] at hs
    by_cases hprov : providedAny look inner = true
    · rw [if_pos hprov] at hs
      cases hsi : sSeq look inner with
      | error e => rw [hsi] at hs; cases hs
      | ok s1 =>
        rw [hsi] at hs
        cases hrest : sSeq look rest with
        | error e => rw [hrest] at hs; cases hs
        | ok t =>
          rw [hrest] at hs
          simp only [Except.map] at hs
          cases hs
          rcases ihI hokI hsi with h1 | h1
          · subst h1
            simpa using ihR hokR hrest
          · right
            have hdata : (s1 ++ t).data = s1.data ++ t.data := String.data_append s1 t
            rw [hdata]
            cases hcs : s1.data with
            | nil => rw [hcs] at h1; cases h1
            | cons c cs =>
              rw [hcs] at h1
              simp only [List.head?] at h1
              simp [h1]
    · rw [if_neg hprov] at hs
      exact ihR hokR hs

/-- C7: the claim states that extraction normalizes every pathname by
stripping all leading and trailing slashes except a single retained
leading slash, so that //users/42, /users/42/ and /users/42/// all
normalize like /users/42.  The code (and this faithful translation of
its single-replacement regex) instead strips the ENTIRE leading run when
it has two or more slashes: trimSlashes of //users/42 is users/42, not
/users/42, contradicting both the claim and the comment above the regex
in parsing.js; the trailing-slash cases do behave as claimed. -/
theorem c7_trimSlashes_leading_run_bug :
    trimSlashes "//users/42" = "users/42"
    ∧ trimSlashes "//users/42" ≠ "/users/42"
    ∧ trimSlashes "/users/42/" = "/users/42"
    ∧ trimSlashes "/users/42///" = "/users/42"
    ∧ trimSlashes "/users/42" = "/users/42"
    ∧ trimSlashes "//users/42/" = "users/42/" := by
  refine ⟨by decide, by decide, by decide, by decide, by decide, by decide⟩

/-- C2: the round-trip claim composes extraction with building, but
building a URL from the mapping id ↦ 42 under the pattern /users/:id
yields the relative URL /users/42, and extraction applied to that URL
string hands it to the URL constructor, which rejects every relative URL;
the extraction therefore throws instead of succeeding with id = 42. -/
theorem c2_roundtrip_crashes_on_relative_url :
    toUrlW initialState { pathname := "/", search := "", hash := "", state := [] }
      (.params [("id", Val.str "42")]) (some "/users/:id") = .ok "/users/42"
    ∧ toParamsA initialState { pathname := "/", search := "", hash := "", state := [] }
      (.url "/users/42") (some "/users/:id") = .error .invalidURL := by
  refine ⟨rfl, rfl⟩

/-- C3 counterexample: with ancestor pattern /admin, own spec
/users/:userId and location /admin/users/7?adminId=3, the derived scope
exposes the query-derived adminId (coerced to the number 3) inside
params, and its rootParams is {userId: 7}, not the empty mapping the
claim states. -/
theorem c3_scope_counterexample :
    (deriveScope initialState { rootPattern := "/admin", rootParams := [] }
        (.str "/users/:userId")
        { pathname := "/admin/users/7", search := "adminId=3", hash := "", state := [] }).map
      (fun sc => (getP sc.params "adminId", sc.rootParams)) =
      .ok (some (Val.num 3), [("userId", Val.str "7")]) := by
  rfl

/-- C3 amended: in the hierarchical-composition scenario the descendant
scope derived by the code has params = {adminId: 3, userId: "7"} (params
come from full extraction, so the query-derived adminId is present,
number-coerced), rootParams = {userId: "7"} (the root pattern includes
the scope's own level), and rest = ""; the ancestor scope itself has
params = {adminId: 3}, rootParams = {} and rest = "/users/7". -/
theorem c3_scope_derivation :
    deriveScope initialState { rootPattern := "", rootParams := [] } (.str "/admin")
      { pathname := "/admin/users/7", search := "adminId=3", hash := "", state := [] } =
      .ok { ownPattern := "/admin", rootPattern := "/admin", pattern := "/admin(*)",
            params := [("adminId", Val.num 3)], rootParams := [],
            rest := Val.str "/users/7" }
    ∧ deriveScope initialState { rootPattern := "/admin", rootParams := [] }
        (.str "/users/:userId")
        { pathname := "/admin/users/7", search := "adminId=3", hash := "", state := [] } =
      .ok { ownPattern := "/users/:userId", rootPattern := "/admin/users/:userId",
            pattern := "/admin/users/:userId(*)",
            params := [("adminId", Val.num 3), ("userId", Val.str "7")],
            rootParams := [("userId", Val.str "7")],
            rest := Val.str "" } := by
  refine ⟨rfl, rfl⟩

/-- C4: a scope's goTo on a parameter-mapping destination first spreads
the ancestor root parameters under the destination (destination keys
override) and then navigates against the scope's full pattern; in the
merged mapping every key resolves to the destination value when present
and to the ancestor value otherwise, and in the concrete scenario with
ancestor rootParams {adminId: "3"} and destination {userId: 9} the
navigation resolves to /admin/3/users/9, whose merged parameters carry
both adminId "3" and userId 9. -/
theorem c4_goTo_merges_ancestor_params :
    (∀ (st : RouterState) (ambLoc : Location) (parent : ParentRouter)
        (pattern : String) (d : Params) (replace : Bool),
      scopeGoTo st ambLoc parent pattern (.params d) replace =
        navigateW st ambLoc (.params (jsMerge parent.rootParams d)) (some pattern) replace)
    ∧ (∀ (parent : ParentRouter) (d : Params) (k : String),
        getP (jsMerge parent.rootParams d) k =
          ((getP d k).or (getP parent.rootParams k)))
    ∧ scopeGoTo initialState { pathname := "/", search := "", hash := "", state := [] }
        { rootPattern := "/admin/:adminId", rootParams := [("adminId", Val.str "3")] }
        "/admin/:adminId/users/:userId(*)" (.params [("userId", Val.num 9)]) false =
        .ok ("/admin/3/users/9", false)
    ∧ getP (jsMerge [("adminId", Val.str "3")] [("userId", Val.num 9)]) "adminId" =
        some (Val.str "3")
    ∧ getP (jsMerge [("adminId", Val.str "3")] [("userId", Val.num 9)]) "userId" =
        some (Val.num 9) := by
  refine ⟨fun st ambLoc parent pattern d replace => rfl,
    fun parent d k => getP_jsMerge parent.rootParams d k,
    rfl, by decide, by decide⟩

/-- C10: runs that differ only in the process-wide default pattern and
in prior cache contents — both expressed as the state after arbitrary
sequences of setPattern and getParser calls from the initial state —
return equal results from toParams, toOwnParams and toUrl whenever the
pattern argument is supplied explicitly; only the omitted-pattern
invocations can see the setPattern state. -/
theorem c10_explicit_pattern_noninterference
    (ops1 ops2 : List RouterOp) (loc ambLoc : Location) (s : String) (dest : Dest) :
    toParamsLoc (applyOps initialState ops1) loc (some s) =
      toParamsLoc (applyOps initialState ops2) loc (some s)
    ∧ toOwnParamsLoc (applyOps initialState ops1) loc (some s) =
      toOwnParamsLoc (applyOps initialState ops2) loc (some s)
    ∧ toUrlW (applyOps initialState ops1) ambLoc dest (some s) =
      toUrlW (applyOps initialState ops2) ambLoc dest (some s) := by
  have h1 := wf_applyOps ops1 wf_initialState
  have h2 := wf_applyOps ops2 wf_initialState
  exact ⟨toParamsLoc_stateFree h1 h2 loc s, toOwnParamsLoc_stateFree h1 h2 loc s,
    toUrlW_stateFree h1 h2 ambLoc dest s⟩


/-- C1: full extraction on a location merges the four per-source
mappings, and the merge precedence, lowest to highest, is state, hash
parameters, search parameters, path parameters: looking up any key in the
result gives the path value when present, else the search value, else the
hash value, else the state value, with no error raised on a collision; in
particular with pathname /users/42, search id=99 and pattern /users/:id
the extracted id is the string 42 (pathname wins over query). -/
theorem c1_extraction_merge_precedence (st : RouterState) (loc : Location)
    (s : String) (p : Pat)
    (hp : getParserE st (some s) = .ok p) (hs : s ≠ "") :
    toParamsLoc st loc (some s) =
      .ok (jsMerge (jsMerge (jsMerge loc.state (qsParse loc.hash)) (qsParse loc.search))
        (matchParams p (trimSlashes loc.pathname)))
    ∧ (∀ k,
        getP (jsMerge (jsMerge (jsMerge loc.state (qsParse loc.hash)) (qsParse loc.search))
          (matchParams p (trimSlashes loc.pathname))) k =
        ((getP (matchParams p (trimSlashes loc.pathname)) k).or
          ((getP (qsParse loc.search) k).or
            ((getP (qsParse loc.hash) k).or (getP loc.state k)))))
    ∧ toParamsLoc initialState
        { pathname := "/users/42", search := "id=99", hash := "", state := [] }
        (some "/users/:id") = .ok [("id", Val.str "42")] := by
  refine ⟨?_, ?_, rfl⟩
  · simp only [toParamsLoc, toOwnParamsLoc, if_neg hs, hp]
  · intro k
    rw [getP_jsMerge, getP_jsMerge, getP_jsMerge]

/-- Witness for C1 at the precedence example from the specification. -/
theorem c1_extraction_merge_precedence_witness :
    getParserE initialState (some "/users/:id") = .ok (Pat.lit '/' (Pat.lit 'u' (Pat.lit 's' (Pat.lit 'e' (Pat.lit 'r' (Pat.lit 's' (Pat.lit '/' (Pat.named "id" Pat.nil))))))))
    ∧ "/users/:id" ≠ ""
    ∧ toParamsLoc initialState
        { pathname := "/users/42", search := "id=99", hash := "", state := [] }
        (some "/users/:id") = .ok [("id", Val.str "42")] := by
  refine ⟨rfl, by decide, ?_⟩
  exact (c1_extraction_merge_precedence initialState
    { pathname := "/users/42", search := "id=99", hash := "", state := [] }
    "/users/:id" (Pat.lit '/' (Pat.lit 'u' (Pat.lit 's' (Pat.lit 'e' (Pat.lit 'r' (Pat.lit 's' (Pat.lit '/' (Pat.named "id" Pat.nil)))))))) rfl (by decide)).2.2

/-- C5: getParser is an insert-or-fetch on a cache keyed by the exact
source string: after one call, repeating the call returns the same
parser and leaves the state unchanged (the cached instance is reused),
the default pattern is untouched, every other key is unaffected, no
existing entry is ever evicted, and any sequence of calls over patterns
that compile performs at most as many compilations as there are distinct
pattern strings in the sequence. -/
theorem c5_parser_cache (st : RouterState) (s : String) (r : Except Err Pat)
    (st2 : RouterState) (h : getParserS st (some s) = (r, st2)) :
    getParserS st2 (some s) = (r, st2)
    ∧ st2.defaultPattern = st.defaultPattern
    ∧ (∀ k, k ≠ s → lookupCache st2.cache k = lookupCache st.cache k)
    ∧ (∀ k p, lookupCache st.cache k = some p → lookupCache st2.cache k = some p)
    ∧ (∀ (ss : List String) (stAny : RouterState),
        (∀ t ∈ ss, (parsePattern t).isSome = true) →
        (runCalls stAny ss).2 ≤ ss.dedup.length) := by
  have hcount : ∀ (ss : List String) (stAny : RouterState),
      (∀ t ∈ ss, (parsePattern t).isSome = true) →
      (runCalls stAny ss).2 ≤ ss.dedup.length := by
    intro ss stAny hv
    exact le_trans (runCalls_le_aux ss stAny hv) (List.length_filter_le _ _)
  cases hl : lookupCache st.cache s with
  | some p =>
    rw [getParserS_hit hl] at h
    injection h with h1 h2
    subst h1
    subst h2
    exact ⟨getParserS_hit hl, rfl, fun k _ => rfl, fun k q hq => hq, hcount⟩
  | none =>
    cases hp : parsePattern s with
    | some p =>
      rw [getParserS_miss_ok hl hp] at h
      injection h with h1 h2
      subst h1
      subst h2
      have hlook : lookupCache (st.cache ++ [(s, p)]) s = some p := by
        rw [lookupCache_append, hl]
        simp [lookupCache, Option.or]
      refine ⟨getParserS_hit hlook, rfl, ?_, ?_, hcount⟩
      · intro k hk
        show lookupCache (st.cache ++ [(s, p)]) k = _
        rw [lookupCache_append]
        have hsk : s ≠ k := fun e => hk e.symm
        have hnone : lookupCache [(s, p)] k = none := by
          simp [lookupCache, hsk]
        rw [hnone]
        cases lookupCache st.cache k <;> simp [Option.or]
      · intro k q hq
        show lookupCache (st.cache ++ [(s, p)]) k = some q
        rw [lookupCache_append, hq]
        simp [Option.or]
    | none =>
      rw [getParserS_miss_bad hl hp] at h
      injection h with h1 h2
      subst h1
      subst h2
      exact ⟨getParserS_miss_bad hl hp, rfl, fun k _ => rfl, fun k q hq => hq, hcount⟩

/-- Witness for C5: compiling /users/:id once and calling again returns
the cached parser with no state change, and three calls over two
distinct valid patterns perform at most two compilations. -/
theorem c5_parser_cache_witness :
    getParserS (getParserS initialState (some "/users/:id")).2 (some "/users/:id") =
      ((getParserS initialState (some "/users/:id")).1,
        (getParserS initialState (some "/users/:id")).2)
    ∧ (runCalls initialState ["/users/:id", "/users/:id", "(*)"]).2 ≤
        (["/users/:id", "/users/:id", "(*)"] : List String).dedup.length := by
  have h := c5_parser_cache initialState "/users/:id"
    (getParserS initialState (some "/users/:id")).1
    (getParserS initialState (some "/users/:id")).2 rfl
  exact ⟨h.1, h.2.2.2.2 ["/users/:id", "/users/:id", "(*)"] initialState (by decide)⟩

/-- C6: building a URL from a parameter mapping against a pattern with a
required named segment whose key is absent from the mapping fails with a
pattern-mismatch error surfaced to the caller; no URL string is
returned. -/
theorem c6_missing_required_segment_errors (st : RouterState) (ambLoc : Location)
    (pat : Option String) (p : Pat) (ps : Params) (n : String)
    (hp : getParserE st pat = .ok p) (hreq : n ∈ requiredNames p)
    (habs : getP ps n = none) :
    ∃ key, toUrlW st ambLoc (.params ps) pat = .error (.patternMismatch key) := by
  have hmem : n ∈ patNames p := requiredNames_mem_patNames hreq
  have hcont : (patNames p).contains n = true := List.elem_eq_true_of_mem hmem
  have hlook : (fun k =>
      if (patNames p).contains k then getP ps k
      else if k = "_" then some (Val.str "") else none) n = none := by
    simp only [hcont, if_true, habs]
  obtain ⟨key, hk⟩ := @sSeq_error_of_required p
    (fun k => if (patNames p).contains k then getP ps k
      else if k = "_" then some (Val.str "") else none) n hreq hlook
  refine ⟨key, ?_⟩
  simp only [toUrlW, stringifyW, hp, hk]

/-- Witness for C6: the empty mapping against /users/:id. -/
theorem c6_missing_required_segment_errors_witness :
    getParserE initialState (some "/users/:id") = .ok (Pat.lit '/' (Pat.lit 'u' (Pat.lit 's' (Pat.lit 'e' (Pat.lit 'r' (Pat.lit 's' (Pat.lit '/' (Pat.named "id" Pat.nil))))))))
    ∧ "id" ∈ requiredNames (Pat.lit '/' (Pat.lit 'u' (Pat.lit 's' (Pat.lit 'e' (Pat.lit 'r' (Pat.lit 's' (Pat.lit '/' (Pat.named "id" Pat.nil))))))))
    ∧ getP ([] : Params) "id" = none
    ∧ ∃ key, toUrlW initialState { pathname := "/", search := "", hash := "", state := [] }
        (.params []) (some "/users/:id") = .error (.patternMismatch key) := by
  refine ⟨rfl, by decide, rfl, ?_⟩
  exact c6_missing_required_segment_errors initialState
    { pathname := "/", search := "", hash := "", state := [] } (some "/users/:id")
    (Pat.lit '/' (Pat.lit 'u' (Pat.lit 's' (Pat.lit 'e' (Pat.lit 'r' (Pat.lit 's' (Pat.lit '/' (Pat.named "id" Pat.nil)))))))) [] "id" rfl (by decide) rfl

theorem stringifyW_headSlash {st : RouterState} {ps : Params} {pat : Option String}
    {p : Pat} {u : String}
    (hp : getParserE st pat = .ok p) (hok : headSlashOk p = true)
    (hu : stringifyW st ps pat = .ok u) :
    u.data.head? = some '/'
    ∧ ∃ pathname : String,
        pathname.data.head? = some '/' ∧
        u = (if qsStringify (omitKeys (patNames p) ps) = "" then pathname
             else pathname ++ "?" ++ qsStringify (omitKeys (patNames p) ps)) := by
  simp only [stringifyW, hp] at hu
  cases hsq : sSeq (fun k => if (patNames p).contains k then getP ps k
      else if k = "_" then some (Val.str "") else none) p with
  | error e =>
    rw [hsq] at hu
    cases hu
  | ok pathRaw =>
    rw [hsq] at hu
    simp only at hu
    injection hu with hu
    have hpath : (if pathRaw = "" then "/" else pathRaw).data.head? = some '/' := by
      by_cases hraw : pathRaw = ""
      · rw [if_pos hraw]
        rfl
      · rw [if_neg hraw]
        rcases sSeq_headSlash hok hsq with h | h
        · exact absurd h hraw
        · exact h
    refine ⟨?_, ⟨if pathRaw = "" then "/" else pathRaw, hpath, hu.symm⟩⟩
    rw [← hu]
    by_cases hq : qsStringify (omitKeys (patNames p) ps) = ""
    · rw [if_pos hq]
      exact hpath
    · rw [if_neg hq]
      obtain ⟨cs, hcs⟩ : ∃ cs, (if pathRaw = "" then "/" else pathRaw).data = '/' :: cs := by
        cases hd : (if pathRaw = "" then "/" else pathRaw).data with
        | nil =>
          rw [hd] at hpath
          cases hpath
        | cons c cs =>
          rw [hd] at hpath
          injection hpath with hc
          exact ⟨cs, by rw [hc]⟩
      rw [String.data_append, String.data_append, hcs]
      rfl

/-- C8 counterexample: with the compilable pattern users/:id (no leading
slash) and the mapping id ↦ 42, buildUrl returns users/42, which is not
a URL beginning with a slash, so the claim fails as universally stated
over every pattern. -/
theorem c8_counterexample :
    toUrlW initialState { pathname := "/", search := "", hash := "", state := [] }
      (.params [("id", Val.str "42")]) (some "users/:id") = .ok "users/42"
    ∧ "users/42".data.head? ≠ some '/' := by
  exact ⟨rfl, by decide⟩

/-- C8 amended: for a mapping or updater destination (never a literal
string) and a pattern whose compiled form is slash-headed, whenever
building succeeds — a missing required segment instead raises a
pattern-mismatch error, see the error-handling claim — the result begins
with a slash, and for a mapping destination it is exactly the stringified
pathname (itself slash-headed, a lone slash when the pattern stringifies
to nothing) with the remaining keys appended as a query string only when
that query string is non-empty. -/
theorem c8_build_url_shape (st : RouterState) (ambLoc : Location)
    (pat : Option String) (p : Pat) (dest : Dest) (u : String)
    (hp : getParserE st pat = .ok p) (hok : headSlashOk p = true)
    (hnl : ∀ s, dest ≠ Dest.url s)
    (hu : toUrlW st ambLoc dest pat = .ok u) :
    u.data.head? = some '/'
    ∧ (∀ ps, dest = Dest.params ps →
        ∃ pathname : String,
          pathname.data.head? = some '/' ∧
          u = (if qsStringify (omitKeys (patNames p) ps) = "" then pathname
               else pathname ++ "?" ++ qsStringify (omitKeys (patNames p) ps))) := by
  cases dest with
  | url s => exact absurd rfl (hnl s)
  | params ps =>
    have h := stringifyW_headSlash hp hok hu
    refine ⟨h.1, fun ps2 hps => ?_⟩
    injection hps with hps
    subst hps
    exact h.2
  | fn f =>
    simp only [toUrlW] at hu
    cases hcur : toParamsLoc st ambLoc pat with
    | error e =>
      rw [hcur] at hu
      cases hu
    | ok cur =>
      rw [hcur] at hu
      have h := stringifyW_headSlash hp hok hu
      exact ⟨h.1, fun ps2 hps => by cases hps⟩

/-- Witness for C8 at the pattern /users/:id with an extra query key. -/
theorem c8_build_url_shape_witness :
    getParserE initialState (some "/users/:id") =
      .ok (Pat.lit '/' (Pat.lit 'u' (Pat.lit 's' (Pat.lit 'e' (Pat.lit 'r' (Pat.lit 's' (Pat.lit '/' (Pat.named "id" Pat.nil))))))))
    ∧ headSlashOk (Pat.lit '/' (Pat.lit 'u' (Pat.lit 's' (Pat.lit 'e' (Pat.lit 'r' (Pat.lit 's' (Pat.lit '/' (Pat.named "id" Pat.nil)))))))) = true
    ∧ toUrlW initialState { pathname := "/", search := "", hash := "", state := [] }
        (.params [("id", Val.str "42"), ("tab", Val.str "x")]) (some "/users/:id") =
        .ok "/users/42?tab=x"
    ∧ "/users/42?tab=x".data.head? = some '/' := by
  refine ⟨rfl, by decide, rfl, ?_⟩
  exact (c8_build_url_shape initialState
    { pathname := "/", search := "", hash := "", state := [] } (some "/users/:id")
    (Pat.lit '/' (Pat.lit 'u' (Pat.lit 's' (Pat.lit 'e' (Pat.lit 'r' (Pat.lit 's' (Pat.lit '/' (Pat.named "id" Pat.nil))))))))
    (.params [("id", Val.str "42"), ("tab", Val.str "x")]) "/users/42?tab=x"
    rfl (by decide) (fun s h => by cases h) rfl).1

/-- C9 counterexample: a primary unmodified click on an anchor with no
href attribute and default not yet prevented makes the handler suppress
the browser default (preventDefault runs before the href check) while
navigation is skipped; the claim instead states that default handling is
left untouched whenever the href attribute is not a string. -/
theorem c9_counterexample :
    goToClick (some ⟨0, false, false, false, false, false, some ⟨"", none, none⟩⟩) =
      ClickOutcome.prevented
    ∧ ClickOutcome.prevented ≠ ClickOutcome.untouched := by
  exact ⟨rfl, by decide⟩

/-- C9 amended: the handler navigates (with the replace flag derived
from the replace attribute) exactly when default was not already
prevented, the primary button was used, the target property is empty or
self, no modifier key is held and the href attribute is a string; when
those event conditions hold but the href attribute is absent it still
suppresses the default without navigating; in every other case default
handling is left untouched. -/
theorem c9_click_conditions (ev : ClickEvent) (el : AnchorEl)
    (hct : ev.currentTarget = some el) (h : String) (r : Bool) :
    (goToClick (some ev) = .navigated h r ↔
      (ev.defaultPrevented = false ∧ ev.button = 0 ∧
       (el.targetProp = "" ∨ el.targetProp = "_self") ∧
       ev.metaKey = false ∧ ev.altKey = false ∧ ev.ctrlKey = false ∧ ev.shiftKey = false ∧
       el.hrefAttr = some h ∧ r = replaceOf el))
    ∧ (goToClick (some ev) = .prevented ↔
      (ev.defaultPrevented = false ∧ ev.button = 0 ∧
       (el.targetProp = "" ∨ el.targetProp = "_self") ∧
       ev.metaKey = false ∧ ev.altKey = false ∧ ev.ctrlKey = false ∧ ev.shiftKey = false ∧
       el.hrefAttr = none)) := by
  have hstep : goToClick (some ev) =
      (if ¬ev.defaultPrevented = true ∧ ev.button = 0 ∧
          (el.targetProp = "" ∨ el.targetProp = "_self") ∧
          ¬((ev.metaKey || ev.altKey || ev.ctrlKey || ev.shiftKey) = true) then
        match el.hrefAttr with
        | some h0 => ClickOutcome.navigated h0 (replaceOf el)
        | none => ClickOutcome.prevented
      else ClickOutcome.untouched) := by
    simp only [goToClick, hct]
  rw [hstep]
  by_cases hcond : (¬ev.defaultPrevented = true ∧ ev.button = 0 ∧
      (el.targetProp = "" ∨ el.targetProp = "_self") ∧
      ¬((ev.metaKey || ev.altKey || ev.ctrlKey || ev.shiftKey) = true))
  · rw [if_pos hcond]
    obtain ⟨h1, h2, h3, h4⟩ := hcond
    have hdp : ev.defaultPrevented = false := by simpa using h1
    have hm1 : ev.metaKey = false := by
      cases hx : ev.metaKey
      · rfl
      · exact absurd (by simp [hx]) h4
    have hm2 : ev.altKey = false := by
      cases hx : ev.altKey
      · rfl
      · exact absurd (by simp [hx]) h4
    have hm3 : ev.ctrlKey = false := by
      cases hx : ev.ctrlKey
      · rfl
      · exact absurd (by simp [hx]) h4
    have hm4 : ev.shiftKey = false := by
      cases hx : ev.shiftKey
      · rfl
      · exact absurd (by simp [hx]) h4
    cases hhref : el.hrefAttr with
    | some h0 =>
      constructor
      · constructor
        · intro hx
          cases hx
          exact ⟨hdp, h2, h3, hm1, hm2, hm3, hm4, rfl, rfl⟩
        · rintro ⟨-, -, -, -, -, -, -, hh, hr⟩
          injection hh with hh
          show ClickOutcome.navigated h0 (replaceOf el) = ClickOutcome.navigated h r
          rw [hh, hr]
      · constructor
        · intro hx
          cases hx
        · rintro ⟨-, -, -, -, -, -, -, hh⟩
          cases hh
    | none =>
      constructor
      · constructor
        · intro hx
          cases hx
        · rintro ⟨-, -, -, -, -, -, -, hh, -⟩
          cases hh
      · constructor
        · intro _
          exact ⟨hdp, h2, h3, hm1, hm2, hm3, hm4, rfl⟩
        · intro _
          rfl
  · rw [if_neg hcond]
    have hcond2 : ¬(ev.defaultPrevented = false ∧ ev.button = 0 ∧
        (el.targetProp = "" ∨ el.targetProp = "_self") ∧
        ev.metaKey = false ∧ ev.altKey = false ∧ ev.ctrlKey = false ∧
        ev.shiftKey = false) := by
      rintro ⟨hdp, hbtn, htgt, hm, ha2, hc2, hs2⟩
      exact hcond ⟨by simp [hdp], hbtn, htgt, by simp [hm, ha2, hc2, hs2]⟩
    constructor
    · constructor
      · intro hx
        cases hx
      · rintro ⟨hdp, hbtn, htgt, hm, ha2, hc2, hs2, -, -⟩
        exact absurd ⟨hdp, hbtn, htgt, hm, ha2, hc2, hs2⟩ hcond2
    · constructor
      · intro hx
        cases hx
      · rintro ⟨hdp, hbtn, htgt, hm, ha2, hc2, hs2, -⟩
        exact absurd ⟨hdp, hbtn, htgt, hm, ha2, hc2, hs2⟩ hcond2

/-- Witness for C9 on a plain primary click with an href and a replace
attribute. -/
theorem c9_click_conditions_witness :
    (⟨0, false, false, false, false, false, some ⟨"", some "/x", some ""⟩⟩ :
        ClickEvent).currentTarget = some ⟨"", some "/x", some ""⟩
    ∧ goToClick (some ⟨0, false, false, false, false, false,
        some ⟨"", some "/x", some ""⟩⟩) = .navigated "/x" true := by
  refine ⟨rfl, ?_⟩
  exact (c9_click_conditions
    ⟨0, false, false, false, false, false, some ⟨"", some "/x", some ""⟩⟩
    ⟨"", some "/x", some ""⟩ rfl "/x" true).1.mpr
    ⟨rfl, rfl, Or.inl rfl, rfl, rfl, rfl, rfl, rfl, by decide⟩
